import Mathlib

/-!
Verification development for the camera-selection core of the repository
(`xrmocap/ops/triangulation/point_selection/camera_error_selector.py`).

Shallow embedding choices:
* A mask or error tensor is stored view-major with all non-view dimensions
  flattened, as `List (List (Option ℚ))`; `none` models a NaN entry and
  `some q` a numeric entry.  This matches the code, which only ever accesses
  these tensors through `reshape(n_view, -1)`, whole-view assignment and
  NaN-aware reductions.
* The triangulator is the external collaborator of the selector; it is a pair
  of opaque-to-the-selector functions (`triangulate`,
  `get_reprojection_error`) over abstract point types.
* Observable side effects (logger warnings, logger info, calls into the
  triangulation service) are returned as an explicit effect trace.
* `np.argpartition(a, kth)[:kth]` is modelled by a deterministic total
  function satisfying the documented numpy contract: it returns `kth` indices
  whose values are less than or equal to every value at a non-returned index,
  with NaN compared as largest (numpy sorts NaN to the end); `kth` out of the
  valid range `[0, len(a))` is a `ValueError`.  numpy leaves the order and
  the tie-breaking implementation defined; the model breaks ties by index.
-/

namespace XRMoCap

/-- A tensor entry: `none` is NaN, `some q` is the numeric value `q`. -/
abbrev MVal := Option ℚ

/-- A view-major tensor with non-view dimensions flattened:
one row per camera view. -/
abbrev Mask := List (List MVal)

/-- Observable side effects of the selector methods. -/
inductive Effect where
  | warn : Effect
  | triangulateCall : Effect
  | reprojCall : Effect
  | logInfo : Effect
deriving DecidableEq, Repr

/-- The triangulation service collaborator
(`xrprimer` `BaseTriangulator`): `triangulate(points, points_mask)` and
`get_reprojection_error(points2d, points3d, points_mask)`.  Point types are
abstract; the reprojection error is returned view-major. -/
structure Triangulator (Pts P3 : Type) where
  triangulate : Pts → Mask → P3
  get_reprojection_error : Pts → P3 → Mask → List (List MVal)

/-- The selector state built by `CameraErrorSelector.__init__`
(lines 18-53): the target camera count, the triangulator and the verbose
flag.  The logger itself is not modelled; its messages appear as effects. -/
structure CameraErrorSelector (Pts P3 : Type) where
  target_camera_number : ℕ
  triangulator : Triangulator Pts P3
  verbose : Bool

/-- `CameraErrorSelector.__init__` (lines 42-53): stores
`target_camera_number` when it is at least 2, otherwise logs an error and
raises `ValueError`.  The argument is an integer, so it is modelled as `ℤ`. -/
def CameraErrorSelector.init {Pts P3 : Type} (target_camera_number : ℤ)
    (triangulator : Triangulator Pts P3) (verbose : Bool) :
    Except String (CameraErrorSelector Pts P3) :=
  if 2 ≤ target_camera_number then
    Except.ok ⟨target_camera_number.toNat, triangulator, verbose⟩
  else
    Except.error "Arg target_camera_number must be no fewer than 2."

/-- `np.abs` on one tensor entry: NaN stays NaN. -/
def absOpt : MVal → MVal
  | none => none
  | some q => some |q|

/-- `np.nanmean` over one flattened view row: the mean of the non-NaN
entries, or NaN when every entry is NaN (line 155-156). -/
def nanmean (row : List MVal) : MVal :=
  let vals := row.filterMap id
  if vals.length = 0 then none else some (vals.sum / (vals.length : ℚ))

/-- Sort key used by the model of `np.argpartition`: compare values with NaN
as largest (numpy sorts NaN last), break ties by index. -/
def keyLE : MVal × ℕ → MVal × ℕ → Prop
  | (some a, i), (some b, j) => a < b ∨ (a = b ∧ i ≤ j)
  | (some _, _), (none, _) => True
  | (none, _), (some _, _) => False
  | (none, i), (none, j) => i ≤ j

instance : DecidableRel keyLE := fun x y =>
  match x, y with
  | (some _, _), (some _, _) => inferInstanceAs (Decidable (_ ∨ _))
  | (some _, _), (none, _) => inferInstanceAs (Decidable True)
  | (none, _), (some _, _) => inferInstanceAs (Decidable False)
  | (none, _), (none, _) => inferInstanceAs (Decidable (_ ≤ _))

/-- Pair each entry of a row with its index, starting from `k`
(the model of `enumerate`, value first). -/
def idxPairs : List MVal → ℕ → List (MVal × ℕ)
  | [], _ => []
  | v :: vs, k => (v, k) :: idxPairs vs (k + 1)

/-- Model of `np.argpartition(a, kth)[:kth]` (lines 158-160): when
`kth < len(a)` it returns `kth` indices whose values are the `kth` smallest
(NaN compared as largest, ties broken by index); when `kth` is out of range
numpy raises `ValueError`. -/
def argpartition_take (a : List MVal) (kth : ℕ) : Except String (List ℕ) :=
  if kth < a.length then
    Except.ok ((((idxPairs a 0).insertionSort keyLE).map Prod.snd).take kth)
  else
    Except.error "kth out of bounds"

/-- Lines 148-156 of `get_camera_indexes`: triangulate, compute the
reprojection error, take its absolute value, and reduce each view row to its
NaN-aware mean. -/
def CameraErrorSelector.mean_view_errors {Pts P3 : Type}
    (sel : CameraErrorSelector Pts P3) (points : Pts)
    (init_points_mask : Mask) : List MVal :=
  let points3d := sel.triangulator.triangulate points init_points_mask
  let error := sel.triangulator.get_reprojection_error points points3d
    init_points_mask
  let abs_error := error.map (List.map absOpt)
  abs_error.map nanmean

/-- `CameraErrorSelector.get_camera_indexes` (lines 104-162), after input
normalization.  When `n_view == 2` it logs a warning and returns all view
indices; otherwise it calls the triangulation service once, scores each view
by its NaN-aware mean absolute reprojection error, selects the
`target_camera_number` best views by partial selection and returns them
sorted ascending.  The first component is the effect trace. -/
def CameraErrorSelector.get_camera_indexes {Pts P3 : Type}
    (sel : CameraErrorSelector Pts P3) (points : Pts)
    (init_points_mask : Mask) :
    List Effect × Except String (List ℕ) :=
  let n_view := init_points_mask.length
  let remain_cameras := List.range n_view
  if n_view = 2 then
    ([Effect.warn], Except.ok remain_cameras)
  else
    let mean_errors := sel.mean_view_errors points init_points_mask
    match argpartition_take mean_errors sel.target_camera_number with
    | Except.error e =>
        ([Effect.triangulateCall, Effect.reprojCall], Except.error e)
    | Except.ok min_error_indexes =>
        ([Effect.triangulateCall, Effect.reprojCall],
          Except.ok
            ((min_error_indexes.map
              (fun i => remain_cameras.getD i 0)).insertionSort (· ≤ ·)))

/-- The loop of lines 91-93: zero out every row whose view index is not in
`selected`, keep selected rows unchanged.  `v` is the index of the first
row. -/
def zeroUnselectedViews (selected : List ℕ) : Mask → ℕ → Mask
  | [], _ => []
  | row :: rest, v =>
    (if v ∈ selected then row else row.map (fun _ => some 0)) ::
      zeroUnselectedViews selected rest (v + 1)

/-- `CameraErrorSelector.get_selection_mask` (lines 55-102), after input
normalization: select camera indexes, copy the mask, zero every non-selected
view, log a stats table when verbose, and return the mask in its original
shape. -/
def CameraErrorSelector.get_selection_mask {Pts P3 : Type}
    (sel : CameraErrorSelector Pts P3) (points : Pts)
    (init_points_mask : Mask) :
    List Effect × Except String Mask :=
  match sel.get_camera_indexes points init_points_mask with
  | (eff, Except.error e) => (eff, Except.error e)
  | (eff, Except.ok selected_cameras) =>
    let points2d_mask := zeroUnselectedViews selected_cameras
      init_points_mask 0
    ((if sel.verbose then eff ++ [Effect.logInfo] else eff),
      Except.ok points2d_mask)

/-!  A heap model for the aliasing behaviour of `get_selection_mask`
(lines 90-93): numpy arrays live in a heap addressed by natural numbers,
`copy` allocates a fresh cell, and the zeroing loop mutates the fresh cell in
place.  This makes the frame property (the normalized input mask array is
not mutated) expressible. -/

/-- A heap of numpy arrays (masks), addressed by allocation order. -/
abbrev Heap := List Mask

/-- Read the array at reference `r`. -/
def heapGet (h : Heap) (r : ℕ) : Mask := h.getD r []

/-- `ndarray.copy()`: allocate a fresh cell holding the same contents and
return its reference. -/
def heapCopy (h : Heap) (r : ℕ) : ℕ × Heap := (h.length, h ++ [heapGet h r])

/-- In-place update of the array at reference `r`. -/
def heapSet (h : Heap) (r : ℕ) (m : Mask) : Heap := h.set r m

/-- The body of `get_selection_mask` after the camera indexes are known
(lines 90-93), on the heap model: `points2d_mask = init_points_mask.copy()`
followed by the in-place zeroing loop on the copy.  Returns the reference of
the result and the final heap. -/
def get_selection_mask_heap (selected : List ℕ) (maskRef : ℕ) (h : Heap) :
    ℕ × Heap :=
  let alloc := heapCopy h maskRef
  let newRef := alloc.1
  let h1 := alloc.2
  let h2 := heapSet h1 newRef (zeroUnselectedViews selected
    (heapGet h1 newRef) 0)
  (newRef, h2)

/-!  Decidability support for evaluating the model on concrete inputs, and
concrete fixtures (triangulators with fixed reprojection-error output,
selectors and masks) used to instantiate the theorems. -/

instance {e a : Type} [DecidableEq e] [DecidableEq a] :
    DecidableEq (Except e a) := fun x y =>
  match x, y with
  | Except.ok u, Except.ok v =>
    if h : u = v then isTrue (by rw [h])
    else isFalse (fun hc => by cases hc; exact h rfl)
  | Except.error u, Except.error v =>
    if h : u = v then isTrue (by rw [h])
    else isFalse (fun hc => by cases hc; exact h rfl)
  | Except.ok _, Except.error _ => isFalse (fun hc => by cases hc)
  | Except.error _, Except.ok _ => isFalse (fun hc => by cases hc)

unseal Rat.add Rat.mul Rat.inv

/-- A triangulator stub whose reprojection error is the empty tensor. -/
def unitTri : Triangulator Unit Unit := ⟨fun _ _ => (), fun _ _ _ => []⟩

/-- A triangulator stub with fixed three-view reprojection error
`[[5], [1], [3]]`. -/
def triErr3 : Triangulator Unit Unit :=
  ⟨fun _ _ => (), fun _ _ _ => [[some 5], [some 1], [some 3]]⟩

/-- A triangulator stub with fixed three-view reprojection error
`[[0], [0], [100]]`. -/
def triErr3b : Triangulator Unit Unit :=
  ⟨fun _ _ => (), fun _ _ _ => [[some 0], [some 0], [some 100]]⟩

/-- A triangulator stub with fixed four-view reprojection error
`[[1], [2], [3], [4]]`. -/
def triErr4 : Triangulator Unit Unit :=
  ⟨fun _ _ => (), fun _ _ _ => [[some 1], [some 2], [some 3], [some 4]]⟩

/-- Selector keeping 2 of 3 views, scored by `triErr3`. -/
def sel3t2 : CameraErrorSelector Unit Unit := ⟨2, triErr3, true⟩

/-- Selector asked to keep all 3 of 3 views. -/
def sel3t3 : CameraErrorSelector Unit Unit := ⟨3, triErr3, true⟩

/-- Selector keeping 2 of 3 views, scored by `triErr3b`, not verbose. -/
def sel3nan : CameraErrorSelector Unit Unit := ⟨2, triErr3b, false⟩

/-- Selector asked to keep all 4 of 4 views. -/
def sel4t4 : CameraErrorSelector Unit Unit := ⟨4, triErr4, true⟩

/-- Selector over 2 views. -/
def sel2c : CameraErrorSelector Unit Unit := ⟨2, unitTri, true⟩

/-- An all-valid two-view mask with one point per view. -/
def mask2c : Mask := [[some 1], [some 1]]

/-- An all-valid three-view mask with one point per view. -/
def mask3c : Mask := [[some 1], [some 1], [some 1]]

/-- A three-view mask with two points per view, all valid. -/
def mask3w : Mask :=
  [[some 1, some 1], [some 1, some 1], [some 1, some 1]]

/-- A three-view mask whose third view holds a NaN entry. -/
def mask3nan : Mask := [[some 1], [some 1], [none]]

/-- An all-valid four-view mask with one point per view. -/
def mask4c : Mask := [[some 1], [some 1], [some 1], [some 1]]

/-!  Order facts about the model. -/

/-- Value order on tensor entries with NaN as largest (non-strict). -/
def errLE : MVal → MVal → Prop
  | _, none => True
  | none, some _ => False
  | some a, some b => a ≤ b

/-- Value order on tensor entries with NaN as largest (strict). -/
def errLT : MVal → MVal → Prop
  | none, _ => False
  | some _, none => True
  | some a, some b => a < b

instance : DecidableRel errLE := fun x y =>
  match x, y with
  | none, none => inferInstanceAs (Decidable True)
  | some _, none => inferInstanceAs (Decidable True)
  | none, some _ => inferInstanceAs (Decidable False)
  | some _, some _ => inferInstanceAs (Decidable (_ ≤ _))

instance : DecidableRel errLT := fun x y =>
  match x, y with
  | none, _ => inferInstanceAs (Decidable False)
  | some _, none => inferInstanceAs (Decidable True)
  | some _, some _ => inferInstanceAs (Decidable (_ < _))

theorem errLT_irrefl (x : MVal) : ¬ errLT x x := by
  cases x <;> simp [errLT]

theorem keyLE_total : ∀ x y : MVal × ℕ, keyLE x y ∨ keyLE y x := by
  rintro ⟨(_ | a), i⟩ ⟨(_ | b), j⟩ <;> simp [keyLE] <;> try omega
  rcases lt_trichotomy a b with h | h | h
  · exact Or.inl (Or.inl h)
  · subst h
    rcases Nat.le_total i j with h | h
    · exact Or.inl (Or.inr ⟨rfl, h⟩)
    · exact Or.inr (Or.inr ⟨rfl, h⟩)
  · exact Or.inr (Or.inl h)

theorem keyLE_trans : ∀ x y z : MVal × ℕ,
    keyLE x y → keyLE y z → keyLE x z := by
  rintro ⟨(_ | a), i⟩ ⟨(_ | b), j⟩ ⟨(_ | c), k⟩ <;> simp [keyLE] <;>
    try omega
  rintro (hab | ⟨rfl, hij⟩) (hbc | ⟨rfl, hjk⟩)
  · exact Or.inl (lt_trans hab hbc)
  · exact Or.inl hab
  · exact Or.inl hbc
  · exact Or.inr ⟨rfl, le_trans hij hjk⟩

instance : IsTotal (MVal × ℕ) keyLE := ⟨keyLE_total⟩

instance : IsTrans (MVal × ℕ) keyLE := ⟨fun a b c => keyLE_trans a b c⟩

theorem keyLE_to_errLE {x y : MVal × ℕ} (h : keyLE x y) : errLE x.1 y.1 := by
  rcases x with ⟨(_ | a), i⟩ <;> rcases y with ⟨(_ | b), j⟩ <;>
    simp [keyLE, errLE] at h ⊢
  rcases h with h | ⟨rfl, _⟩
  · exact le_of_lt h
  · exact le_refl _

theorem errLT_not_errLE {x y : MVal} (h : errLT x y) : ¬ errLE y x := by
  cases x <;> cases y <;> simp [errLT, errLE] at h ⊢
  exact h

/-!  Facts about `idxPairs`. -/

theorem idxPairs_mem {a : List MVal} {k : ℕ} {p : MVal × ℕ}
    (hp : p ∈ idxPairs a k) :
    k ≤ p.2 ∧ p.2 - k < a.length ∧ p.1 = a.getD (p.2 - k) none := by
  induction a generalizing k with
  | nil => simp [idxPairs] at hp
  | cons v vs ih =>
    rcases List.mem_cons.mp hp with rfl | hp
    · exact ⟨le_refl _, by simp, by simp⟩
    · rcases ih hp with ⟨h1, h2, h3⟩
      refine ⟨by omega, ?_, ?_⟩
      · simp only [List.length_cons]
        omega
      · have hd : p.2 - k = (p.2 - (k + 1)) + 1 := by omega
        rw [hd, List.getD_cons_succ]
        exact h3

theorem idxPairs_map_snd (a : List MVal) (k : ℕ) :
    (idxPairs a k).map Prod.snd = List.range' k a.length := by
  induction a generalizing k with
  | nil => simp [idxPairs]
  | cons v vs ih => simp [idxPairs, List.range'_succ, ih]

theorem idxPairs_length (a : List MVal) (k : ℕ) :
    (idxPairs a k).length = a.length := by
  induction a generalizing k with
  | nil => simp [idxPairs]
  | cons v vs ih => simp [idxPairs, ih]

/-- Correctness of the `np.argpartition(a, kth)[:kth]` model: for `kth` in
range it returns `kth` distinct in-range indices, and every returned index
holds a value less than or equal (NaN as largest) to the value at every
non-returned index. -/
theorem argpartition_take_spec (a : List MVal) (kth : ℕ)
    (h : kth < a.length) :
    ∃ idxs, argpartition_take a kth = Except.ok idxs ∧
      idxs.length = kth ∧ idxs.Nodup ∧
      (∀ i ∈ idxs, i < a.length) ∧
      (∀ s ∈ idxs, ∀ t, t < a.length → t ∉ idxs →
        errLE (a.getD s none) (a.getD t none)) := by
  have hperm : List.Perm ((idxPairs a 0).insertionSort keyLE)
      (idxPairs a 0) :=
    List.perm_insertionSort keyLE (idxPairs a 0)
  have hsorted : List.Sorted keyLE ((idxPairs a 0).insertionSort keyLE) :=
    List.sorted_insertionSort keyLE (idxPairs a 0)
  set srt := (idxPairs a 0).insertionSort keyLE with hsrt
  have hlen_srt : srt.length = a.length := by
    rw [hperm.length_eq, idxPairs_length]
  have hperm_snd : List.Perm (srt.map Prod.snd) (List.range' 0 a.length) := by
    rw [← idxPairs_map_snd a 0]
    exact hperm.map Prod.snd
  have hmem_indices : ∀ t : ℕ, t ∈ srt.map Prod.snd ↔ t < a.length := by
    intro t
    rw [hperm_snd.mem_iff, List.mem_range'_1]
    omega
  have hnodup_indices : (srt.map Prod.snd).Nodup :=
    hperm_snd.nodup_iff.mpr (List.nodup_range' 0 a.length)
  refine ⟨((srt.map Prod.snd).take kth), ?_, ?_, ?_, ?_, ?_⟩
  · simp [argpartition_take, h]
  · simp [hlen_srt]
    omega
  · exact List.Nodup.sublist (List.take_sublist kth _) hnodup_indices
  · intro i hi
    exact (hmem_indices i).mp (List.take_subset kth _ hi)
  · intro s hs t ht htn
    rw [← List.map_take] at hs
    obtain ⟨ps, hps_mem, hps_eq⟩ := List.mem_map.mp hs
    have ht_mem : t ∈ srt.map Prod.snd := (hmem_indices t).mpr ht
    have ht_drop : t ∈ (srt.drop kth).map Prod.snd := by
      rw [← List.take_append_drop kth srt, List.map_append] at ht_mem
      rcases List.mem_append.mp ht_mem with hcase | hcase
      · exact absurd (by rwa [List.map_take] at hcase) htn
      · exact hcase
    obtain ⟨pt, hpt_mem, hpt_eq⟩ := List.mem_map.mp ht_drop
    have hcross : keyLE ps pt := by
      have hpw := hsorted
      rw [List.Sorted, ← List.take_append_drop kth srt,
        List.pairwise_append] at hpw
      exact hpw.2.2 ps hps_mem pt hpt_mem
    have hps_pairs : ps ∈ idxPairs a 0 :=
      hperm.subset (List.take_subset kth srt hps_mem)
    have hpt_pairs : pt ∈ idxPairs a 0 :=
      hperm.subset (List.drop_subset kth srt hpt_mem)
    have hps_val := (idxPairs_mem hps_pairs).2.2
    have hpt_val := (idxPairs_mem hpt_pairs).2.2
    rw [Nat.sub_zero] at hps_val hpt_val
    have := keyLE_to_errLE hcross
    rw [hps_val, hpt_val, hps_eq, hpt_eq] at this
    exact this

/-!  Equations and correctness of `get_camera_indexes`. -/

theorem getD_range {n i : ℕ} (h : i < n) : (List.range n).getD i 0 = i := by
  rw [List.getD_eq_getElem _ _ (by simpa using h)]
  simp

theorem sorted_lt_of_sorted_le_nodup {l : List ℕ}
    (hs : List.Sorted (· ≤ ·) l) (hn : l.Nodup) :
    List.Sorted (· < ·) l :=
  (List.Pairwise.and hs hn).imp (fun h => lt_of_le_of_ne h.1 h.2)

/-- `get_camera_indexes`, `n_view == 2` branch (lines 143-146): warn and
return all camera indexes. -/
theorem get_camera_indexes_eq_two {Pts P3 : Type}
    (sel : CameraErrorSelector Pts P3) (points : Pts) (mask : Mask)
    (h2 : mask.length = 2) :
    sel.get_camera_indexes points mask =
      ([Effect.warn], Except.ok [0, 1]) := by
  unfold CameraErrorSelector.get_camera_indexes
  simp [h2]
  decide

/-- `get_camera_indexes`, else branch, successful partition
(lines 147-162). -/
theorem get_camera_indexes_eq_ok {Pts P3 : Type}
    (sel : CameraErrorSelector Pts P3) (points : Pts) (mask : Mask)
    (hn : mask.length ≠ 2) (idxs : List ℕ)
    (hap : argpartition_take (sel.mean_view_errors points mask)
      sel.target_camera_number = Except.ok idxs) :
    sel.get_camera_indexes points mask =
      ([Effect.triangulateCall, Effect.reprojCall],
        Except.ok ((idxs.map
          (fun i => (List.range mask.length).getD i 0)).insertionSort
            (· ≤ ·))) := by
  unfold CameraErrorSelector.get_camera_indexes
  simp [hn, hap]

/-- `get_camera_indexes`, else branch, partition failure (the
`np.argpartition` `ValueError` propagates). -/
theorem get_camera_indexes_eq_err {Pts P3 : Type}
    (sel : CameraErrorSelector Pts P3) (points : Pts) (mask : Mask)
    (hn : mask.length ≠ 2) (e : String)
    (hap : argpartition_take (sel.mean_view_errors points mask)
      sel.target_camera_number = Except.error e) :
    sel.get_camera_indexes points mask =
      ([Effect.triangulateCall, Effect.reprojCall], Except.error e) := by
  unfold CameraErrorSelector.get_camera_indexes
  simp [hn, hap]

/-- Full characterization of a successful `get_camera_indexes` run through
the scoring branch: the result is a strictly ascending list of
`target_camera_number` distinct in-range view indices, and every selected
view has a mean error less than or equal (NaN as largest) to that of every
non-selected view. -/
theorem get_camera_indexes_ok_spec {Pts P3 : Type}
    (sel : CameraErrorSelector Pts P3) (points : Pts) (mask : Mask)
    (hn : mask.length ≠ 2)
    (herr : (sel.mean_view_errors points mask).length = mask.length)
    (hk : sel.target_camera_number < mask.length) :
    ∃ l, (sel.get_camera_indexes points mask).2 = Except.ok l ∧
      l.length = sel.target_camera_number ∧
      List.Sorted (· < ·) l ∧
      (∀ i ∈ l, i < mask.length) ∧
      (∀ s ∈ l, ∀ t, t < mask.length → t ∉ l →
        errLE ((sel.mean_view_errors points mask).getD s none)
          ((sel.mean_view_errors points mask).getD t none)) := by
  obtain ⟨idxs, hap, hlen, hnodup, hrange, hpart⟩ :=
    argpartition_take_spec (sel.mean_view_errors points mask)
      sel.target_camera_number (by omega)
  have hmap : idxs.map (fun i => (List.range mask.length).getD i 0) =
      idxs := by
    have : ∀ i ∈ idxs, (List.range mask.length).getD i 0 = id i := by
      intro i hi
      exact getD_range (by rw [← herr]; exact hrange i hi)
    rw [List.map_congr_left this, List.map_id]
  set l := (idxs.map
    (fun i => (List.range mask.length).getD i 0)).insertionSort (· ≤ ·)
    with hl
  have heq := get_camera_indexes_eq_ok sel points mask hn idxs hap
  have hperm : List.Perm l idxs := by
    rw [hl, hmap]
    exact List.perm_insertionSort _ idxs
  have hmem : ∀ i : ℕ, i ∈ l ↔ i ∈ idxs := fun i => hperm.mem_iff
  have hsorted_le : List.Sorted (· ≤ ·) l := by
    rw [hl]
    exact List.sorted_insertionSort _ _
  refine ⟨l, by rw [heq], ?_, ?_, ?_, ?_⟩
  · rw [hperm.length_eq, hlen]
  · exact sorted_lt_of_sorted_le_nodup hsorted_le
      (hperm.symm.nodup hnodup)
  · intro i hi
    rw [← herr]
    exact hrange i ((hmem i).mp hi)
  · intro s hs t ht htn
    exact hpart s ((hmem s).mp hs) t (by omega)
      (fun hc => htn ((hmem t).mpr hc))

/-!  Facts about the mask-assembly loop and `get_selection_mask`. -/

theorem zeroUnselectedViews_length (selected : List ℕ) :
    ∀ (m : Mask) (v : ℕ),
    (zeroUnselectedViews selected m v).length = m.length := by
  intro m
  induction m with
  | nil => intro v; simp [zeroUnselectedViews]
  | cons row rest ih => intro v; simp [zeroUnselectedViews, ih]

theorem zeroUnselectedViews_getD (selected : List ℕ) :
    ∀ (m : Mask) (v k : ℕ), k < m.length →
    (zeroUnselectedViews selected m v).getD k [] =
      if (v + k) ∈ selected then m.getD k []
      else (m.getD k []).map (fun _ => some 0) := by
  intro m
  induction m with
  | nil => intro v k hk; simp at hk
  | cons row rest ih =>
    intro v k hk
    cases k with
    | zero => simp [zeroUnselectedViews]
    | succ k =>
      simp only [zeroUnselectedViews, List.getD_cons_succ]
      rw [ih (v + 1) k (by simpa using hk)]
      have harith : v + 1 + k = v + (k + 1) := by omega
      rw [harith]

/-- `get_selection_mask` on a run whose index selection succeeds: the result
is the input mask with every non-selected view zeroed. -/
theorem get_selection_mask_eq_ok {Pts P3 : Type}
    (sel : CameraErrorSelector Pts P3) (points : Pts) (mask : Mask)
    (l : List ℕ)
    (hok : (sel.get_camera_indexes points mask).2 = Except.ok l) :
    (sel.get_selection_mask points mask).2 =
      Except.ok (zeroUnselectedViews l mask 0) := by
  unfold CameraErrorSelector.get_selection_mask
  cases hcall : sel.get_camera_indexes points mask with
  | mk eff res =>
    rw [hcall] at hok
    have h2 : res = Except.ok l := hok
    subst h2
    simp

/-- Row-level description of a successful `get_selection_mask` run: selected
rows are kept unchanged, non-selected rows are zeroed elementwise. -/
theorem get_selection_mask_rows {Pts P3 : Type}
    (sel : CameraErrorSelector Pts P3) (points : Pts) (mask : Mask)
    (l : List ℕ)
    (hok : (sel.get_camera_indexes points mask).2 = Except.ok l) :
    ∃ m, (sel.get_selection_mask points mask).2 = Except.ok m ∧
      m.length = mask.length ∧
      ∀ v, v < mask.length →
        m.getD v [] = (if v ∈ l then mask.getD v []
          else (mask.getD v []).map (fun _ => some 0)) := by
  refine ⟨zeroUnselectedViews l mask 0,
    get_selection_mask_eq_ok sel points mask l hok,
    zeroUnselectedViews_length l mask 0, ?_⟩
  intro v hv
  have h := zeroUnselectedViews_getD l mask 0 v hv
  rwa [Nat.zero_add] at h

/-!  Facts about the heap model. -/

theorem heapGet_append_left {h : Heap} {r : ℕ} (hr : r < h.length)
    (m : Mask) : heapGet (h ++ [m]) r = heapGet h r := by
  unfold heapGet
  have hlt : r < (h ++ [m]).length := by
    simp only [List.length_append, List.length_cons, List.length_nil]
    omega
  rw [List.getD_eq_getElem _ _ hlt, List.getD_eq_getElem _ _ hr]
  exact List.getElem_append_left hr

theorem heapGet_set_ne {h : Heap} {r s : ℕ} (hne : s ≠ r) (m : Mask) :
    heapGet (heapSet h s m) r = heapGet h r := by
  unfold heapGet heapSet
  by_cases hr : r < h.length
  · rw [List.getD_eq_getElem _ _ (by simpa using hr),
      List.getD_eq_getElem _ _ hr]
    exact List.getElem_set_ne hne _
  · have hge : (h.set s m).length ≤ r := by
      simp only [List.length_set]
      omega
    rw [List.getD_eq_default _ _ hge, List.getD_eq_default _ _ (by omega)]

/-!  Claim theorems. -/

/-- C4: constructing a `CameraErrorSelector` with `target_camera_number < 2`
raises `ValueError` immediately at construction time, before any
triangulation or selection call; construction with
`target_camera_number >= 2` succeeds and stores the value. -/
theorem C4_init_validation {Pts P3 : Type} (t : ℤ)
    (tri : Triangulator Pts P3) (v : Bool) :
    (t < 2 → CameraErrorSelector.init t tri v =
      Except.error "Arg target_camera_number must be no fewer than 2.") ∧
    (2 ≤ t → CameraErrorSelector.init t tri v =
      Except.ok ⟨t.toNat, tri, v⟩) := by
  constructor
  · intro h
    unfold CameraErrorSelector.init
    rw [if_neg (by omega)]
  · intro h
    unfold CameraErrorSelector.init
    rw [if_pos h]

theorem C4_init_validation_witness :
    ((1 : ℤ) < 2 ∧ CameraErrorSelector.init 1 unitTri true =
      Except.error "Arg target_camera_number must be no fewer than 2.") ∧
    (2 ≤ (3 : ℤ) ∧ CameraErrorSelector.init 3 unitTri true =
      Except.ok ⟨3, unitTri, true⟩) :=
  ⟨⟨by decide, (C4_init_validation 1 unitTri true).1 (by decide)⟩,
   ⟨by decide, (C4_init_validation 3 unitTri true).2 (by decide)⟩⟩

/-- C5: for every input with `n_view == 2`, `get_camera_indexes` returns
`[0, 1]` unchanged regardless of point content and of the triangulator, its
only effect is a diagnostic warning (nothing is raised), and the
triangulation service is never invoked. -/
theorem C5_two_view_short_circuit {Pts P3 : Type}
    (sel : CameraErrorSelector Pts P3) (points : Pts) (mask : Mask)
    (h2 : mask.length = 2) :
    sel.get_camera_indexes points mask =
      ([Effect.warn], Except.ok [0, 1]) ∧
    Effect.triangulateCall ∉ (sel.get_camera_indexes points mask).1 ∧
    Effect.warn ∈ (sel.get_camera_indexes points mask).1 := by
  have h := get_camera_indexes_eq_two sel points mask h2
  refine ⟨h, ?_, ?_⟩ <;> rw [h] <;> decide

theorem C5_two_view_short_circuit_witness :
    mask2c.length = 2 ∧
    (sel2c.get_camera_indexes () mask2c =
      ([Effect.warn], Except.ok [0, 1]) ∧
    Effect.triangulateCall ∉ (sel2c.get_camera_indexes () mask2c).1 ∧
    Effect.warn ∈ (sel2c.get_camera_indexes () mask2c).1) :=
  ⟨by decide, C5_two_view_short_circuit sel2c () mask2c (by decide)⟩

/-- C7: `get_camera_indexes` and `get_selection_mask` are deterministic:
two calls with identical inputs on the same selector configuration return
identical outputs (both methods are pure functions of the selector state
and the arguments; the embedding threads no mutable state because the
source methods never assign to `self`). -/
theorem C7_deterministic {Pts P3 : Type}
    (sel : CameraErrorSelector Pts P3) (points1 points2 : Pts)
    (mask1 mask2 : Mask) (hp : points1 = points2) (hm : mask1 = mask2) :
    sel.get_camera_indexes points1 mask1 =
      sel.get_camera_indexes points2 mask2 ∧
    sel.get_selection_mask points1 mask1 =
      sel.get_selection_mask points2 mask2 := by
  subst hp
  subst hm
  exact ⟨rfl, rfl⟩

theorem C7_deterministic_witness :
    sel3t2.get_camera_indexes () mask3c =
      sel3t2.get_camera_indexes () mask3c ∧
    sel3t2.get_selection_mask () mask3c =
      sel3t2.get_selection_mask () mask3c :=
  C7_deterministic sel3t2 () () mask3c mask3c rfl rfl

/-- C8: for every input with `n_view > 2`, one call to
`get_camera_indexes` invokes the triangulation service exactly once — one
`triangulate` call and one `get_reprojection_error` call — and never
re-triangulates iteratively. -/
theorem C8_single_pass {Pts P3 : Type}
    (sel : CameraErrorSelector Pts P3) (points : Pts) (mask : Mask)
    (hn : 2 < mask.length) :
    (sel.get_camera_indexes points mask).1 =
      [Effect.triangulateCall, Effect.reprojCall] ∧
    (sel.get_camera_indexes points mask).1.count Effect.triangulateCall
      = 1 ∧
    (sel.get_camera_indexes points mask).1.count Effect.reprojCall = 1 := by
  have hne : mask.length ≠ 2 := by omega
  cases hap : argpartition_take (sel.mean_view_errors points mask)
      sel.target_camera_number with
  | error e =>
    rw [get_camera_indexes_eq_err sel points mask hne e hap]
    exact ⟨rfl, rfl, rfl⟩
  | ok idxs =>
    rw [get_camera_indexes_eq_ok sel points mask hne idxs hap]
    exact ⟨rfl, rfl, rfl⟩

theorem C8_single_pass_witness :
    2 < mask3c.length ∧
    ((sel3t2.get_camera_indexes () mask3c).1 =
      [Effect.triangulateCall, Effect.reprojCall] ∧
    (sel3t2.get_camera_indexes () mask3c).1.count Effect.triangulateCall
      = 1 ∧
    (sel3t2.get_camera_indexes () mask3c).1.count Effect.reprojCall = 1) :=
  ⟨by decide, C8_single_pass sel3t2 () mask3c (by decide)⟩

/-- C10: for every input with `n_view > 2` and
`target_camera_number == n_view` (with the collaborator returning one error
row per view), `get_camera_indexes` raises from the partition step —
`np.argpartition` is called with `kth` equal to the array length, which is
out of bounds — instead of returning the full index list. -/
theorem C10_argpartition_out_of_bounds {Pts P3 : Type}
    (sel : CameraErrorSelector Pts P3) (points : Pts) (mask : Mask)
    (hn : 2 < mask.length)
    (herr : (sel.mean_view_errors points mask).length = mask.length)
    (ht : sel.target_camera_number = mask.length) :
    (sel.get_camera_indexes points mask).2 =
      Except.error "kth out of bounds" := by
  have hap : argpartition_take (sel.mean_view_errors points mask)
      sel.target_camera_number = Except.error "kth out of bounds" := by
    unfold argpartition_take
    rw [if_neg (by omega)]
  rw [get_camera_indexes_eq_err sel points mask (by omega) _ hap]

theorem C10_argpartition_out_of_bounds_witness :
    (2 < mask3c.length ∧
      (sel3t3.mean_view_errors () mask3c).length = mask3c.length ∧
      sel3t3.target_camera_number = mask3c.length) ∧
    (sel3t3.get_camera_indexes () mask3c).2 =
      Except.error "kth out of bounds" :=
  ⟨⟨by decide, by decide, by decide⟩,
    C10_argpartition_out_of_bounds sel3t3 () mask3c (by decide) (by decide)
      (by decide)⟩

/-- C9: the body of `get_selection_mask` copies the normalized input mask
before zeroing rejected views: on the heap model, the returned array is a
fresh reference and the array produced by input normalization is left
unchanged. -/
theorem C9_no_input_mutation (h : Heap) (maskRef : ℕ) (selected : List ℕ)
    (hr : maskRef < h.length) :
    (get_selection_mask_heap selected maskRef h).1 ≠ maskRef ∧
    heapGet (get_selection_mask_heap selected maskRef h).2 maskRef =
      heapGet h maskRef := by
  refine ⟨?_, ?_⟩
  · show h.length ≠ maskRef
    omega
  · show heapGet (heapSet (h ++ [heapGet h maskRef]) h.length
      (zeroUnselectedViews selected
        (heapGet (h ++ [heapGet h maskRef]) h.length) 0)) maskRef =
      heapGet h maskRef
    rw [heapGet_set_ne (show h.length ≠ maskRef by omega),
      heapGet_append_left hr]

/-- A one-array heap holding a two-view mask with a NaN entry. -/
def heap1 : Heap := [[[some 1], [none]]]

theorem C9_no_input_mutation_witness :
    0 < heap1.length ∧
    ((get_selection_mask_heap [0] 0 heap1).1 ≠ 0 ∧
      heapGet (get_selection_mask_heap [0] 0 heap1).2 0 =
        heapGet heap1 0) :=
  ⟨by decide, C9_no_input_mutation heap1 0 [0] (by decide)⟩

/-- C3: the mask returned by `get_selection_mask` has the same shape as the
normalized input mask; every view not returned by `get_camera_indexes` has
all of its mask entries equal to 0, and every selected view keeps its input
mask row unchanged. -/
theorem C3_selection_mask_rows {Pts P3 : Type}
    (sel : CameraErrorSelector Pts P3) (points : Pts) (mask : Mask)
    (l : List ℕ)
    (hok : (sel.get_camera_indexes points mask).2 = Except.ok l) :
    ∃ m, (sel.get_selection_mask points mask).2 = Except.ok m ∧
      m.length = mask.length ∧
      (∀ v, v < mask.length →
        (m.getD v []).length = (mask.getD v []).length) ∧
      (∀ v, v < mask.length → v ∉ l →
        m.getD v [] = (mask.getD v []).map (fun _ => some 0)) ∧
      (∀ v, v < mask.length → v ∈ l → m.getD v [] = mask.getD v []) := by
  obtain ⟨m, hm, hlen, hrows⟩ :=
    get_selection_mask_rows sel points mask l hok
  refine ⟨m, hm, hlen, ?_, ?_, ?_⟩
  · intro v hv
    rw [hrows v hv]
    by_cases hsel : v ∈ l <;> simp [hsel]
  · intro v hv hnot
    rw [hrows v hv, if_neg hnot]
  · intro v hv hyes
    rw [hrows v hv, if_pos hyes]

theorem C3_selection_mask_rows_witness :
    (sel3t2.get_camera_indexes () mask3c).2 = Except.ok [1, 2] ∧
    (∃ m, (sel3t2.get_selection_mask () mask3c).2 = Except.ok m ∧
      m.length = mask3c.length ∧
      (∀ v, v < mask3c.length →
        (m.getD v []).length = (mask3c.getD v []).length) ∧
      (∀ v, v < mask3c.length → v ∉ [1, 2] →
        m.getD v [] = (mask3c.getD v []).map (fun _ => some 0)) ∧
      (∀ v, v < mask3c.length → v ∈ [1, 2] →
        m.getD v [] = mask3c.getD v [])) :=
  ⟨by decide, C3_selection_mask_rows sel3t2 () mask3c [1, 2] (by decide)⟩

/-- C6, counterexample to the claim as stated: the claim asserts a NaN mask
entry is preserved in the output of `get_selection_mask` for every view
whether selected or not, but the code zeroes whole non-selected views.
Here view 2 holds NaN at its only entry, views `[0, 1]` are selected, and
the output row of view 2 is `[0]`, not `[NaN]`. -/
theorem C6_counterexample :
    mask3nan.getD 2 [] = [none] ∧
    (sel3nan.get_camera_indexes () mask3nan).2 = Except.ok [0, 1] ∧
    (sel3nan.get_selection_mask () mask3nan).2 =
      Except.ok [[some 1], [some 1], [some 0]] :=
  ⟨by decide, by decide, by decide⟩

/-- C6 (amended): a NaN entry is excluded from every NaN-aware per-view
mean computation, and in the mask returned by `get_selection_mask` a view
keeps its entries (NaN included) exactly when it is selected, while every
entry of a non-selected view — NaN included — is overwritten with 0. -/
theorem C6_nan_semantics {Pts P3 : Type}
    (sel : CameraErrorSelector Pts P3) (points : Pts) (mask : Mask)
    (l : List ℕ) (v : ℕ) (pre post : List MVal)
    (hok : (sel.get_camera_indexes points mask).2 = Except.ok l)
    (hv : v < mask.length) :
    nanmean (pre ++ none :: post) = nanmean (pre ++ post) ∧
    ∃ m, (sel.get_selection_mask points mask).2 = Except.ok m ∧
      (v ∈ l → m.getD v [] = mask.getD v []) ∧
      (v ∉ l → m.getD v [] = (mask.getD v []).map (fun _ => some 0)) := by
  constructor
  · unfold nanmean
    simp [List.filterMap_append]
  · obtain ⟨m, hm, _, hrows⟩ :=
      get_selection_mask_rows sel points mask l hok
    exact ⟨m, hm, fun hin => by rw [hrows v hv, if_pos hin],
      fun hno => by rw [hrows v hv, if_neg hno]⟩

theorem C6_nan_semantics_witness :
    ((sel3nan.get_camera_indexes () mask3nan).2 = Except.ok [0, 1] ∧
      2 < mask3nan.length) ∧
    (nanmean ([some 1] ++ none :: [some 2]) =
      nanmean ([some 1] ++ [some 2]) ∧
    ∃ m, (sel3nan.get_selection_mask () mask3nan).2 = Except.ok m ∧
      (2 ∈ [0, 1] → m.getD 2 [] = mask3nan.getD 2 []) ∧
      (2 ∉ [0, 1] →
        m.getD 2 [] = (mask3nan.getD 2 []).map (fun _ => some 0))) :=
  ⟨⟨by decide, by decide⟩,
    C6_nan_semantics sel3nan () mask3nan [0, 1] 2 [some 1] [some 2]
      (by decide) (by decide)⟩

/-- C1, counterexample to the claim as stated: the claim covers every input
with `n_view > 2` and `n_view >= target_camera_number` and asserts the
selected set is returned; at `n_view = target_camera_number = 4` the call
raises from the partition step instead of returning any set of indices. -/
theorem C1_counterexample :
    2 < mask4c.length ∧ sel4t4.target_camera_number = mask4c.length ∧
    (sel4t4.get_camera_indexes () mask4c).2 =
      Except.error "kth out of bounds" :=
  ⟨by decide, by decide, by decide⟩

/-- C1 (amended): for every input with `n_view > 2` and
`n_view > target_camera_number` (and one error row per view, as the
collaborator contract requires), `get_camera_indexes` returns
`target_camera_number` views whose mean absolute reprojection errors
(NaN-aware means, NaN compared as largest) are less than or equal to that
of every non-selected view; in particular any view whose mean error is
strictly lower than that of every non-selected view is selected. -/
theorem C1_top_k_by_mean_error {Pts P3 : Type}
    (sel : CameraErrorSelector Pts P3) (points : Pts) (mask : Mask)
    (hn : 2 < mask.length)
    (herr : (sel.mean_view_errors points mask).length = mask.length)
    (hk : sel.target_camera_number < mask.length) :
    ∃ l, (sel.get_camera_indexes points mask).2 = Except.ok l ∧
      l.length = sel.target_camera_number ∧
      (∀ s ∈ l, ∀ t, t < mask.length → t ∉ l →
        errLE ((sel.mean_view_errors points mask).getD s none)
          ((sel.mean_view_errors points mask).getD t none)) ∧
      (∀ i, i < mask.length →
        (∀ j, j < mask.length → j ∉ l →
          errLT ((sel.mean_view_errors points mask).getD i none)
            ((sel.mean_view_errors points mask).getD j none)) →
        i ∈ l) := by
  obtain ⟨l, hok, hlen, _, _, hpart⟩ :=
    get_camera_indexes_ok_spec sel points mask (by omega) herr hk
  refine ⟨l, hok, hlen, hpart, ?_⟩
  intro i hi hstrict
  by_contra hnot
  exact errLT_irrefl _ (hstrict i hi hnot)

theorem C1_top_k_by_mean_error_witness :
    (2 < mask3c.length ∧
      (sel3t2.mean_view_errors () mask3c).length = mask3c.length ∧
      sel3t2.target_camera_number < mask3c.length) ∧
    (∃ l, (sel3t2.get_camera_indexes () mask3c).2 = Except.ok l ∧
      l.length = sel3t2.target_camera_number ∧
      (∀ s ∈ l, ∀ t, t < mask3c.length → t ∉ l →
        errLE ((sel3t2.mean_view_errors () mask3c).getD s none)
          ((sel3t2.mean_view_errors () mask3c).getD t none)) ∧
      (∀ i, i < mask3c.length →
        (∀ j, j < mask3c.length → j ∉ l →
          errLT ((sel3t2.mean_view_errors () mask3c).getD i none)
            ((sel3t2.mean_view_errors () mask3c).getD j none)) →
        i ∈ l)) :=
  ⟨⟨by decide, by decide, by decide⟩,
    C1_top_k_by_mean_error sel3t2 () mask3c (by decide) (by decide)
      (by decide)⟩

/-- C2, counterexample to the claim as stated: `n_view = 3` and
`target_camera_number = 3` is a valid input in the sense of the claim
(`n_view >= target_camera_number >= 2` and `n_view` is not 2), yet
`get_camera_indexes` raises from the partition step instead of returning an
ascending list of length 3. -/
theorem C2_counterexample :
    2 ≤ sel3t3.target_camera_number ∧
    sel3t3.target_camera_number ≤ mask3w.length ∧
    (sel3t3.get_camera_indexes () mask3w).2 =
      Except.error "kth out of bounds" :=
  ⟨by decide, by decide, by decide⟩

/-- C2 (amended): for every valid input
(`n_view >= target_camera_number >= 2`, one error row per view) with
additionally `target_camera_number < n_view` or `n_view == 2`,
`get_camera_indexes` returns a strictly ascending list of unique integers,
each in `[0, n_view)`, of length exactly `target_camera_number`
(or `n_view` when `n_view == 2`). -/
theorem C2_well_formed_output {Pts P3 : Type}
    (sel : CameraErrorSelector Pts P3) (points : Pts) (mask : Mask)
    (ht : 2 ≤ sel.target_camera_number)
    (_hvalid : sel.target_camera_number ≤ mask.length)
    (herr : (sel.mean_view_errors points mask).length = mask.length)
    (hamend : mask.length = 2 ∨ sel.target_camera_number < mask.length) :
    ∃ l, (sel.get_camera_indexes points mask).2 = Except.ok l ∧
      List.Sorted (· < ·) l ∧
      (∀ i ∈ l, i < mask.length) ∧
      l.length = (if mask.length = 2 then mask.length
        else sel.target_camera_number) := by
  rcases hamend with h2 | hlt
  · rw [get_camera_indexes_eq_two sel points mask h2]
    refine ⟨[0, 1], rfl, by decide, ?_, ?_⟩
    · intro i hi
      simp only [List.mem_cons, List.not_mem_nil, or_false] at hi
      rcases hi with rfl | rfl <;> omega
    · rw [if_pos h2, h2]
      decide
  · by_cases h2 : mask.length = 2
    · exact absurd hlt (by omega)
    · obtain ⟨l, hok, hlen, hsort, hrange, _⟩ :=
        get_camera_indexes_ok_spec sel points mask h2 herr hlt
      refine ⟨l, hok, hsort, hrange, ?_⟩
      rw [if_neg h2]
      exact hlen

theorem C2_well_formed_output_witness :
    (2 ≤ sel3t2.target_camera_number ∧
      sel3t2.target_camera_number ≤ mask3c.length ∧
      (sel3t2.mean_view_errors () mask3c).length = mask3c.length ∧
      sel3t2.target_camera_number < mask3c.length) ∧
    (∃ l, (sel3t2.get_camera_indexes () mask3c).2 = Except.ok l ∧
      List.Sorted (· < ·) l ∧
      (∀ i ∈ l, i < mask3c.length) ∧
      l.length = (if mask3c.length = 2 then mask3c.length
        else sel3t2.target_camera_number)) :=
  ⟨⟨by decide, by decide, by decide, by decide⟩,
    C2_well_formed_output sel3t2 () mask3c (by decide) (by decide)
      (by decide) (Or.inr (by decide))⟩

end XRMoCap
